import Mathlib

/-
Verification of the image-classification core of Manimify2Explain
(graph_processor.py, table_processor.py, main.py).

The OpenCV primitives (decode, color conversion, thresholding, morphology,
contour finding) are external library calls; they are modelled abstractly as a
record of operations `CvOps`, each fallible step returning `Except CvError`.
A contour is represented by the data the code reads off it: its
`cv2.contourArea` and the moments m00, m10, m01 used for the centroid.
Pixel contents of rasters are irrelevant to every claim (only shapes and the
abstract results of the cv calls matter), so a raster carries its dimensions.

Floating-point `np.sqrt` and float division are modelled by exact rational /
integer arithmetic; the strict comparison `sqrt d < min(h,w)/5` is embedded as
the equivalent `25 * d < min(h,w)^2` on integers, and an edge stores the
squared distance `wsq` (the code stores `sqrt wsq` as the weight).
-/

namespace Manimify

/-- A decoded raster image (numpy ndarray); only its shape is observable by the
logic under verification. -/
structure Raster where
  height : Nat
  width : Nat
  deriving DecidableEq

/-- The data cv2 computes from one contour: `cv2.contourArea` and the moments
`m00`, `m10`, `m01` read in graph_processor.py lines 47-52. cv2 returns these
as floating-point numbers; the glue logic under verification only compares
them and applies Python `int(·/·)` truncating division, so they are modelled
as exact integers. -/
structure Contour where
  area : ℤ
  m00 : ℤ
  m10 : ℤ
  m01 : ℤ
  deriving DecidableEq

/-- Failures raised by the cv2 layer inside the try blocks. -/
inductive CvError where
  /-- cv2.imdecode asserts on an empty buffer. -/
  | emptyBuffer
  /-- a cv2 call applied to Python `None` (failed decode) raises. -/
  | nullInput
  /-- any other analysis failure (channel mismatch, degenerate input). -/
  | cvFailure
  deriving DecidableEq

/-- The two input shapes accepted by `extract_graph_structure`, `is_graph_image`
and `detect_table`: raw encoded bytes or an already decoded ndarray. -/
inductive PyImage where
  | bytes (b : List Nat)
  | raster (r : Raster)
  deriving DecidableEq

/-- Abstract model of the external cv2 / pytesseract calls the pipeline makes.
`imdecode` returns `none` exactly when Python `cv2.imdecode` returns `None`
(undecodable data); the other operations may fail on degenerate inputs. -/
structure CvOps where
  imdecode : List Nat → Option Raster
  cvtColor : Raster → Except CvError Raster
  thresholdInv : Raster → Except CvError Raster
  findContours : Raster → Except CvError (List Contour)
  erode : Nat → Nat → Raster → Except CvError Raster
  dilate : Nat → Nat → Raster → Except CvError Raster
  add : Raster → Raster → Except CvError Raster
  ocrText : Raster → String

/-- An edge of the extracted graph: endpoints `i < j` in node-index order and
the squared Euclidean distance between the two centroids (`weight = sqrt wsq`
in the code, line 72). -/
structure GraphEdge where
  i : Nat
  j : Nat
  wsq : ℤ
  deriving DecidableEq

/-- The networkx graph built by `extract_graph_structure`: nodes are
`(index, pos)` pairs in discovery order, edges normalized with `i < j`. -/
structure Graph where
  nodes : List (Nat × (ℤ × ℤ))
  edges : List GraphEdge
  deriving DecidableEq

/-- The empty `nx.Graph()` returned on failure. -/
def Graph.empty : Graph := ⟨[], []⟩

/-- Python `int(a / b)` on numbers with exact ratio a/b: truncation of the
quotient toward zero, which on integers is `Int.tdiv`. -/
def pyIntDiv (a b : ℤ) : ℤ := Int.tdiv a b

/-- graph_processor.py lines 47-52: `cX = int(M10/M00)`, `cY = int(M01/M00)`,
and `(0, 0)` when `M00 == 0`. -/
def centroid (c : Contour) : ℤ × ℤ :=
  if c.m00 ≠ 0 then (pyIntDiv c.m10 c.m00, pyIntDiv c.m01 c.m00) else (0, 0)

/-- Squared Euclidean distance between two integer node positions
(graph_processor.py lines 65-66 before the square root). -/
def distSq (p q : ℤ × ℤ) : ℤ := (p.1 - q.1) ^ 2 + (p.2 - q.2) ^ 2

/-- graph_processor.py lines 70-71: `np.sqrt(distSq) < min(h, w) / 5`. Both
sides are nonnegative, so the strict comparison is exactly
`25 * distSq < min(h, w)^2` in integer arithmetic. -/
def closeEnough (p q : ℤ × ℤ) (h w : Nat) : Bool :=
  decide (25 * distSq p q < ((min h w : ℤ)) ^ 2)

/-- The loop order of graph_processor.py lines 59-60: all pairs `(i, j)` with
`i < j < n`, `i` outer and `j = i+1 .. n-1` inner. -/
def pairList (n : Nat) : List (Nat × Nat) :=
  (List.range n).flatMap
    (fun i => ((List.range n).filter (fun j => decide (i < j))).map (fun j => (i, j)))

/-- Node and edge construction of graph_processor.py lines 44-72 from the
significant contours and the shape of the decoded image. -/
def buildGraph (sig : List Contour) (h w : Nat) : Graph :=
  let pos := sig.map centroid
  { nodes := pos.enum
    edges := (pairList sig.length).filterMap (fun p =>
      let a := pos.getD p.1 (0, 0)
      let b := pos.getD p.2 (0, 0)
      if closeEnough a b h w then some ⟨p.1, p.2, distSq a b⟩ else none) }

/-- The decode prefix shared by graph_processor.py lines 25-27 and
table_processor.py lines 63-65: an ndarray passes through; bytes go through
`cv2.imdecode`, which raises on an empty buffer, and when it returns `None`
the next cv2 call (`cvtColor(None)`) raises — that failure is accounted here
since nothing observes the value in between. -/
def decodeInput (cv : CvOps) (img : PyImage) : Except CvError Raster :=
  match img with
  | .raster r => .ok r
  | .bytes b =>
    if b.isEmpty then .error .emptyBuffer
    else
      match cv.imdecode b with
      | some r => .ok r
      | none => .error .nullInput

/-- graph_processor.py line 42 (spec 4.2 `extract_significant_contours`): keep
exactly the contours whose `cv2.contourArea` strictly exceeds `min_area`. -/
def extract_significant_contours (contours : List Contour) (min_area : ℤ) : List Contour :=
  contours.filter (fun c => decide (min_area < c.area))

/-- The fallible body of `extract_graph_structure` up to the significant
contours (graph_processor.py lines 23-42), also returning the decoded image
whose shape line 70 reads. -/
def extractStage (cv : CvOps) (img : PyImage) : Except CvError (Raster × List Contour) := do
  let image ← decodeInput cv img
  let gray ← cv.cvtColor image
  let binary ← cv.thresholdInv gray
  let contours ← cv.findContours binary
  .ok (image, extract_significant_contours contours 100)

/-- graph_processor.py `extract_graph_structure`: the try body, with the
catch-all except returning `nx.Graph()` (lines 76-78). -/
def extract_graph_structure (cv : CvOps) (img : PyImage) : Graph :=
  match extractStage cv img with
  | .ok (image, sig) => buildGraph sig image.height image.width
  | .error _ => Graph.empty

/-- graph_processor.py `is_graph_image` lines 91-100: node count > 2 and edge
count > 1 over the extracted graph; its own body cannot raise. -/
def is_graph_image (cv : CvOps) (img : PyImage) : Bool :=
  let graph := extract_graph_structure cv img
  decide (2 < graph.nodes.length) && decide (1 < graph.edges.length)

/-- table_processor.py lines 62-90: decode, grayscale, inverted binarization,
directional erode-then-dilate openings sized `width/30 × 1` and
`1 × height/30`, merged with `cv2.add`. -/
def tableLinesStage (cv : CvOps) (img : PyImage) : Except CvError Raster := do
  let image ← decodeInput cv img
  let gray ← cv.cvtColor image
  let binary ← cv.thresholdInv gray
  let hsize := gray.width / 30
  let vsize := gray.height / 30
  let h1 ← cv.erode hsize 1 binary
  let horizontal ← cv.dilate hsize 1 h1
  let v1 ← cv.erode 1 vsize binary
  let vertical ← cv.dilate 1 vsize v1
  cv.add horizontal vertical

/-- The fallible body of `detect_table` (table_processor.py lines 61-96). -/
def detect_table_except (cv : CvOps) (img : PyImage) : Except CvError Bool := do
  let lines ← tableLinesStage cv img
  let contours ← cv.findContours lines
  .ok (decide (5 < contours.length))

/-- table_processor.py `detect_table`: the catch-all except returns false
(lines 98-100). -/
def detect_table (cv : CvOps) (img : PyImage) : Bool :=
  match detect_table_except cv img with
  | .ok b => b
  | .error _ => false

/-- table_processor.py `ocr_table`: the OCR internals are external; its
catch-all makes the result a total string. -/
def ocr_table (cv : CvOps) (r : Raster) : String := cv.ocrText r

/-- Result values of main.py `preprocess_image`: a decoded ndarray, Python
`None` (cv2.imdecode returned None, passed through by `return image`), or the
`np.array([])` produced by the except branch. -/
inductive PreOut where
  | img (r : Raster)
  | pynone
  | emptyArr
  deriving DecidableEq

/-- main.py `preprocess_image` lines 31-37: `np.frombuffer` never raises;
`cv2.imdecode` raises on an empty buffer (caught, line 37 returning
`np.array([])`) and returns `None` on nonempty undecodable bytes, which the
function returns unchanged. -/
def preprocess_image (cv : CvOps) (b : List Nat) : PreOut :=
  if b.isEmpty then .emptyArr
  else
    match cv.imdecode b with
    | some r => .img r
    | none => .pynone

/-- One record of the image list main.py `process_images` consumes. -/
structure ImgRecord where
  image : List Nat
  page_num : Nat
  deriving DecidableEq

/-- Exceptions that can escape `process_images` (it has no try block). -/
inductive PyError where
  /-- `None.size` — AttributeError on the result of a failed decode. -/
  | attributeError
  deriving DecidableEq

/-- main.py line 65 page tag prepended to each table text. -/
def pageInfo (n : Nat) : String :=
  "[Таблица со страницы " ++ toString (n + 1) ++ "]:\n"

/-- The loop state of `process_images` (main.py lines 50-52). -/
structure PState where
  table_texts : List String
  best_graph : Option Graph
  max_nodes : Nat
  deriving DecidableEq

/-- One iteration of the `process_images` loop (main.py lines 54-76). A `None`
image raises AttributeError at `image.size`; an empty array is skipped; a
table-classified image may append text; otherwise a graph-classified image
replaces the best graph when it has strictly more nodes. -/
def processOne (cv : CvOps) (st : PState) (rec : ImgRecord) : Except PyError PState :=
  match preprocess_image cv rec.image with
  | .pynone => .error .attributeError
  | .emptyArr => .ok st
  | .img r =>
    if detect_table cv (.raster r) then
      if (ocr_table cv r).trim ≠ "" then
        .ok { st with table_texts :=
          st.table_texts ++ [pageInfo rec.page_num ++ ocr_table cv r ++ "\n"] }
      else .ok st
    else if is_graph_image cv (.raster r) then
      if st.max_nodes < (extract_graph_structure cv (.raster r)).nodes.length then
        .ok { st with best_graph := some (extract_graph_structure cv (.raster r)),
                      max_nodes := (extract_graph_structure cv (.raster r)).nodes.length }
      else .ok st
    else .ok st

/-- main.py `process_images`: fold the loop over the list, then join the table
texts with newlines and return the best graph. -/
def process_images (cv : CvOps) (images : List ImgRecord) :
    Except PyError (String × Option Graph) := do
  let st ← images.foldlM (processOne cv) ⟨[], none, 0⟩
  .ok (String.intercalate "\n" st.table_texts, st.best_graph)

/-- The graph a record contributes when the loop classifies it as a graph:
decode succeeded, `detect_table` said false, `is_graph_image` said true. -/
def classifyGraph (cv : CvOps) (rec : ImgRecord) : Option Graph :=
  match preprocess_image cv rec.image with
  | .img r =>
    if detect_table cv (.raster r) then none
    else if is_graph_image cv (.raster r) then some (extract_graph_structure cv (.raster r))
    else none
  | _ => none

/-- All graphs of graph-classified images of a batch, in input order. -/
def graphCandidates (cv : CvOps) (l : List ImgRecord) : List Graph :=
  l.filterMap (classifyGraph cv)

/-- The pure best-graph selection the loop performs over the candidate graphs:
strictly more nodes replaces the current best. -/
def pickBest (init : Option Graph × Nat) (cs : List Graph) : Option Graph × Nat :=
  cs.foldl (fun bm c => if bm.2 < c.nodes.length then (some c, c.nodes.length) else bm) init

/-- The exact rational centroid named by the specification (`cx = M10/M00`,
`cy = M01/M00`, `(0,0)` when `M00 == 0`) — to be compared with the integer
positions the code assigns. -/
def centroidRat (c : Contour) : ℚ × ℚ :=
  if c.m00 ≠ 0 then ((c.m10 : ℚ) / (c.m00 : ℚ), (c.m01 : ℚ) / (c.m00 : ℚ)) else (0, 0)

/-- The edges of a graph joining the unordered pair `{i, j}`. -/
def edgesBetween (g : Graph) (i j : Nat) : List GraphEdge :=
  g.edges.filter (fun e => (decide (e.i = i) && decide (e.j = j)) ||
                           (decide (e.i = j) && decide (e.j = i)))

/-- A concrete cv oracle for evaluating the pipeline: every 100x100 decode
succeeds, morphology is the identity, and contour finding reports three
unit-mass blobs at x = 0, 1, 2, each of area 101. -/
def cvDemo : CvOps where
  imdecode := fun _ => some ⟨100, 100⟩
  cvtColor := fun r => .ok r
  thresholdInv := fun r => .ok r
  findContours := fun _ => .ok [⟨101, 1, 0, 0⟩, ⟨101, 1, 1, 0⟩, ⟨101, 1, 2, 0⟩]
  erode := fun _ _ r => .ok r
  dilate := fun _ _ r => .ok r
  add := fun a _ => .ok a
  ocrText := fun _ => ""

/-- A cv oracle whose decoder rejects everything, as `cv2.imdecode` does on
bytes that are not a supported image encoding: it returns `None`. -/
def cvNone : CvOps :=
  { cvDemo with imdecode := fun _ => none }

/-- A cv oracle reporting a single contour whose centroid ratio `m10/m00` is
the non-integer 3/2. -/
def cvHalf : CvOps :=
  { cvDemo with findContours := fun _ => .ok [⟨101, 2, 3, 0⟩] }

/-- The graph `cvDemo`'s contours produce on a 100x100 image: three collinear
nodes one pixel apart, all within the 20-pixel threshold, hence a triangle. -/
def gDemo : Graph :=
  ⟨[(0, (0, 0)), (1, (1, 0)), (2, (2, 0))], [⟨0, 1, 1⟩, ⟨0, 2, 4⟩, ⟨1, 2, 1⟩]⟩

/-- The squared distance is a sum of squares, hence nonnegative. -/
theorem distSq_nonneg (p q : ℤ × ℤ) : 0 ≤ distSq p q := by
  unfold distSq
  positivity

/-- The Boolean comparison `25 * d² < min(h,w)²` used in the embedding is the
code's `np.sqrt(d²) < min(h, w) / 5` read over exact reals. -/
theorem closeEnough_iff (p q : ℤ × ℤ) (h w : Nat) :
    closeEnough p q h w = true ↔
      Real.sqrt ((distSq p q : ℤ) : ℝ) < (min h w : ℝ) / 5 := by
  rw [closeEnough, decide_eq_true_eq]
  rcases Nat.eq_zero_or_pos (min h w) with h0 | hpos
  · have hzi : min (h : ℤ) (w : ℤ) = 0 := by exact_mod_cast h0
    have hzr : min (h : ℝ) (w : ℝ) = 0 := by exact_mod_cast h0
    rw [hzi, hzr]
    norm_num
    exact iff_of_false (not_lt.mpr (mul_nonneg (by norm_num) (distSq_nonneg p q)))
      (not_lt.mpr (Real.sqrt_nonneg _))
  · have h5 : (0 : ℝ) < min (h : ℝ) (w : ℝ) / 5 := by
      have hm : (0 : ℝ) < min (h : ℝ) (w : ℝ) := by exact_mod_cast hpos
      positivity
    rw [Real.sqrt_lt' h5, div_pow]
    rw [lt_div_iff₀ (by norm_num : (0 : ℝ) < (5 : ℝ) ^ 2)]
    constructor <;> intro hx
    · rify at hx
      linarith
    · rify
      linarith

/-- Pair loop membership: exactly the ordered pairs `i < j < n`. -/
theorem mem_pairList (n : Nat) (p : Nat × Nat) :
    p ∈ pairList n ↔ p.1 < p.2 ∧ p.2 < n := by
  cases p with
  | mk i j =>
    simp only [pairList, List.mem_flatMap, List.mem_map, List.mem_filter, List.mem_range,
      decide_eq_true_eq]
    constructor
    · rintro ⟨a, _, b, ⟨hb, hab⟩, heq⟩
      cases heq
      exact ⟨hab, hb⟩
    · rintro ⟨hij, hj⟩
      exact ⟨i, lt_trans hij hj, j, ⟨hj, hij⟩, rfl⟩

/-- The pair loop visits no pair twice. -/
theorem nodup_pairList (n : Nat) : (pairList n).Nodup := by
  rw [pairList, List.nodup_flatMap]
  constructor
  · intro i _
    refine List.Nodup.map ?_ (List.Nodup.filter _ (List.nodup_range n))
    intro a b hab
    exact (Prod.mk.injEq i a i b).mp hab |>.2
  · refine List.Pairwise.imp ?_ (List.pairwise_lt_range n)
    intro a b hab
    intro x hxa hxb
    simp only [List.mem_map, List.mem_filter, List.mem_range] at hxa hxb
    obtain ⟨ja, _, rfl⟩ := hxa
    obtain ⟨jb, _, hba⟩ := hxb
    exact absurd ((Prod.mk.injEq _ _ _ _).mp hba).1 (Nat.ne_of_lt hab).symm

/-- Each ordered pair below the bound occurs exactly once in the loop. -/
theorem count_pairList (n i j : Nat) (hij : i < j) (hj : j < n) :
    (i, j) ∈ pairList n :=
  (mem_pairList n (i, j)).mpr ⟨hij, hj⟩

/-- Filtering a list with no duplicates down to one contained element. -/
theorem filter_eq_single {α : Type} [DecidableEq α] :
    ∀ (l : List α) (a : α), l.Nodup → a ∈ l →
      l.filter (fun x => decide (x = a)) = [a] := by
  intro l
  induction l with
  | nil => intro a _ ha; cases ha
  | cons x xs ih =>
    intro a hnd ha
    rcases List.mem_cons.mp ha with rfl | ha
    · rw [List.filter_cons_of_pos (by simp)]
      have hx : a ∉ xs := (List.nodup_cons.mp hnd).1
      have : xs.filter (fun y => decide (y = a)) = [] := by
        rw [List.filter_eq_nil_iff]
        intro b hb
        simp only [decide_eq_true_eq]
        intro hba
        exact hx (hba ▸ hb)
      rw [this]
    · have hxa : x ≠ a := by
        rintro rfl
        exact (List.nodup_cons.mp hnd).1 ha
      rw [List.filter_cons_of_neg (by simpa using hxa)]
      exact ih a (List.nodup_cons.mp hnd).2 ha

/-- Pulling an unordered-pair filter through the edge construction: when every
listed pair is ordered and the target pair is ordered, only the exact pair
`(i, j)` can contribute. -/
theorem filter_between_filterMap (F : Nat × Nat → Option GraphEdge)
    (hF : ∀ p e, F p = some e → e.i = p.1 ∧ e.j = p.2) (i j : Nat) (hij : i < j) :
    ∀ ps : List (Nat × Nat), (∀ p ∈ ps, p.1 < p.2) →
      (ps.filterMap F).filter (fun e => (decide (e.i = i) && decide (e.j = j)) ||
          (decide (e.i = j) && decide (e.j = i)))
        = (ps.filter (fun p => decide (p = (i, j)))).filterMap F := by
  intro ps
  induction ps with
  | nil => intro _; rfl
  | cons p ps ih =>
    intro hord
    have hrest := ih (fun x hx => hord x (List.mem_cons.mpr (Or.inr hx)))
    by_cases hp : p = (i, j)
    · subst hp
      rw [List.filter_cons_of_pos (by simp)]
      cases hFp : F (i, j) with
      | none => rw [List.filterMap_cons_none hFp, List.filterMap_cons_none hFp]; exact hrest
      | some e =>
        rw [List.filterMap_cons_some hFp, List.filterMap_cons_some hFp]
        obtain ⟨hei, hej⟩ := hF _ _ hFp
        rw [List.filter_cons_of_pos (by simp [hei, hej])]
        rw [hrest]
    · rw [List.filter_cons_of_neg (by simpa using hp)]
      cases hFp : F p with
      | none => rw [List.filterMap_cons_none hFp]; exact hrest
      | some e =>
        rw [List.filterMap_cons_some hFp]
        obtain ⟨hei, hej⟩ := hF _ _ hFp
        have hpo : p.1 < p.2 := hord p (List.mem_cons.mpr (Or.inl rfl))
        have hne : ¬ ((e.i = i ∧ e.j = j) ∨ (e.i = j ∧ e.j = i)) := by
          rintro (⟨h1, h2⟩ | ⟨h1, h2⟩)
          · exact hp (by rw [← h1, ← h2, hei, hej])
          · rw [hei] at h1; rw [hej] at h2
            omega
        rw [List.filter_cons_of_neg (by simpa using hne)]
        exact hrest

/-- C1: `is_graph_image` returns true exactly when the graph produced by
`extract_graph_structure` on the same input has more than 2 nodes and more
than 1 edge. -/
theorem C1_is_graph_iff_counts (cv : CvOps) (img : PyImage) :
    is_graph_image cv img = true ↔
      2 < (extract_graph_structure cv img).nodes.length ∧
      1 < (extract_graph_structure cv img).edges.length := by
  simp [is_graph_image]

/-- C6: whenever the table pipeline reaches the merged line mask and the
contour count on it, `detect_table` answers true exactly when that count is
strictly greater than 5. -/
theorem C6_detect_table_iff_count (cv : CvOps) (img : PyImage) (m : Raster)
    (cs : List Contour) (hm : tableLinesStage cv img = .ok m)
    (hc : cv.findContours m = .ok cs) :
    detect_table cv img = true ↔ 5 < cs.length := by
  simp [detect_table, detect_table_except, hm, hc, bind, Except.bind]

/-- C6 witness: a concrete run through `cvDemo` reaching 3 contours. -/
theorem C6_detect_table_iff_count_witness :
    tableLinesStage cvDemo (.raster ⟨100, 100⟩) = .ok ⟨100, 100⟩ ∧
      (detect_table cvDemo (.raster ⟨100, 100⟩) = true ↔
        5 < [(⟨101, 1, 0, 0⟩ : Contour), ⟨101, 1, 1, 0⟩, ⟨101, 1, 2, 0⟩].length) :=
  ⟨rfl, C6_detect_table_iff_count cvDemo (.raster ⟨100, 100⟩) ⟨100, 100⟩
    [⟨101, 1, 0, 0⟩, ⟨101, 1, 1, 0⟩, ⟨101, 1, 2, 0⟩] rfl rfl⟩

/-- C7: when the fallible bodies of the graph and table pipelines fail (as
they do on any malformed input, a zero-byte buffer included), no exception
escapes: `extract_graph_structure` returns the empty graph, and
`is_graph_image` and `detect_table` return false. -/
theorem C7_conservative_on_failure (cv : CvOps) (img : PyImage) (e₁ e₂ : CvError)
    (hg : extractStage cv img = .error e₁)
    (ht : detect_table_except cv img = .error e₂) :
    extract_graph_structure cv img = Graph.empty ∧
      is_graph_image cv img = false ∧ detect_table cv img = false := by
  refine ⟨?_, ?_, ?_⟩
  · simp [extract_graph_structure, hg]
  · simp [is_graph_image, extract_graph_structure, hg, Graph.empty]
  · simp [detect_table, ht]

/-- C7 witness: the zero-byte buffer makes both bodies fail on the empty
buffer assertion, and all three conservative results hold. -/
theorem C7_conservative_on_failure_witness :
    extractStage cvDemo (.bytes []) = .error .emptyBuffer ∧
      detect_table_except cvDemo (.bytes []) = .error .emptyBuffer ∧
      (extract_graph_structure cvDemo (.bytes []) = Graph.empty ∧
        is_graph_image cvDemo (.bytes []) = false ∧
        detect_table cvDemo (.bytes []) = false) :=
  ⟨rfl, rfl, C7_conservative_on_failure cvDemo (.bytes []) .emptyBuffer .emptyBuffer rfl rfl⟩

/-- C8: the significant-contour filter keeps exactly the contours of area
strictly greater than the threshold, and lowering the threshold to 0 never
decreases the number kept. -/
theorem C8_filter_strict_and_monotone (contours : List Contour) (A : ℤ) (hA : 0 ≤ A) :
    (∀ c ∈ extract_significant_contours contours A, A < c.area) ∧
      (extract_significant_contours contours A).length ≤
        (extract_significant_contours contours 0).length := by
  constructor
  · intro c hc
    simpa using (List.mem_filter.mp hc).2
  · refine List.Sublist.length_le (List.monotone_filter_right contours ?_)
    intro c hc
    simp only [decide_eq_true_eq] at hc ⊢
    exact lt_of_le_of_lt hA hc

/-- C8 witness: the filter at threshold 1 over two concrete contours. -/
theorem C8_filter_strict_and_monotone_witness :
    (0 : ℤ) ≤ 1 ∧
      ((∀ c ∈ extract_significant_contours [⟨1, 1, 0, 0⟩, ⟨2, 1, 0, 0⟩] 1,
          (1 : ℤ) < c.area) ∧
        (extract_significant_contours [⟨1, 1, 0, 0⟩, ⟨2, 1, 0, 0⟩] 1).length ≤
          (extract_significant_contours [⟨1, 1, 0, 0⟩, ⟨2, 1, 0, 0⟩] 0).length) :=
  ⟨by decide, C8_filter_strict_and_monotone [⟨1, 1, 0, 0⟩, ⟨2, 1, 0, 0⟩] 1 (by decide)⟩

/-- C2 counterexample: `preprocess_image` emits no decode-error signal. On the
empty (undecodable) buffer its except branch returns the zero-sized
`np.array([])`, and on nonempty undecodable bytes it returns Python `None` —
never an explicit error. -/
theorem C2_counterexample :
    preprocess_image cvDemo [] = PreOut.emptyArr ∧
      preprocess_image cvNone [0] = PreOut.pynone :=
  ⟨rfl, rfl⟩

/-- C2 amended: on undecodable input `preprocess_image` does not raise and
produces a sentinel instead of an error — `np.array([])` for an empty buffer
and Python `None` for nonempty undecodable bytes. -/
theorem C2_amended_sentinels (cv : CvOps) (b : List Nat) (hb : b ≠ [])
    (hdec : cv.imdecode b = none) :
    preprocess_image cv b = PreOut.pynone ∧
      preprocess_image cv [] = PreOut.emptyArr := by
  constructor
  · simp [preprocess_image, hb, hdec]
  · rfl

/-- C2 amended witness: concrete undecodable single-byte input. -/
theorem C2_amended_sentinels_witness :
    ([0] : List Nat) ≠ [] ∧ cvNone.imdecode [0] = none ∧
      (preprocess_image cvNone [0] = PreOut.pynone ∧
        preprocess_image cvNone [] = PreOut.emptyArr) :=
  ⟨by decide, rfl, C2_amended_sentinels cvNone [0] (by decide) rfl⟩

/-- C3: evaluation at the failing input. A batch holding one record of
nonempty undecodable bytes makes `process_images` raise: `cv2.imdecode`
returns `None`, `preprocess_image` passes it through, and `image.size` raises
AttributeError, aborting the whole batch instead of skipping the image. -/
theorem C3_batch_aborts :
    process_images cvNone [⟨[0], 0⟩, ⟨[1], 1⟩] = .error .attributeError :=
  rfl

/-- C4 counterexample: for the surviving contour with moments m00 = 2,
m10 = 3, m01 = 0 the claimed centroid is (3/2, 0), but the code assigns the
truncated integer position (1, 0). -/
theorem C4_counterexample :
    (extract_graph_structure cvHalf (.raster ⟨100, 100⟩)).nodes = [(0, (1, 0))] ∧
      centroidRat ⟨101, 2, 3, 0⟩ = (3 / 2, 0) ∧
      ((1 : ℚ), (0 : ℚ)) ≠ ((3 / 2 : ℚ), (0 : ℚ)) := by
  refine ⟨by decide, ?_, by norm_num⟩
  norm_num [centroidRat]

/-- C4 amended: the node made from the i-th surviving contour carries the
Python-int truncation of the moment ratios, `(int(M10/M00), int(M01/M00))`,
and `(0, 0)` when `M00 = 0`. -/
theorem C4_amended_truncated_centroid (cv : CvOps) (img : PyImage) (image : Raster)
    (sig : List Contour) (hstage : extractStage cv img = .ok (image, sig))
    (i : Nat) (c : Contour) (hc : sig[i]? = some c) :
    (extract_graph_structure cv img).nodes[i]? =
      some (i, if c.m00 ≠ 0 then (pyIntDiv c.m10 c.m00, pyIntDiv c.m01 c.m00)
               else (0, 0)) := by
  have hx : extract_graph_structure cv img = buildGraph sig image.height image.width := by
    simp [extract_graph_structure, hstage]
  rw [hx]
  show ((sig.map centroid).enum)[i]? = _
  rw [List.getElem?_enum, List.getElem?_map, hc]
  rfl

/-- C4 amended witness: concrete run where the truncated centroid is (1, 0). -/
theorem C4_amended_truncated_centroid_witness :
    extractStage cvHalf (.raster ⟨100, 100⟩) = .ok (⟨100, 100⟩, [⟨101, 2, 3, 0⟩]) ∧
      [(⟨101, 2, 3, 0⟩ : Contour)][0]? = some ⟨101, 2, 3, 0⟩ ∧
      (extract_graph_structure cvHalf (.raster ⟨100, 100⟩)).nodes[0]? =
        some (0, if (⟨101, 2, 3, 0⟩ : Contour).m00 ≠ 0 then
                   (pyIntDiv (⟨101, 2, 3, 0⟩ : Contour).m10 (⟨101, 2, 3, 0⟩ : Contour).m00,
                    pyIntDiv (⟨101, 2, 3, 0⟩ : Contour).m01 (⟨101, 2, 3, 0⟩ : Contour).m00)
                 else (0, 0)) :=
  ⟨rfl, rfl, C4_amended_truncated_centroid cvHalf (.raster ⟨100, 100⟩) ⟨100, 100⟩
    [⟨101, 2, 3, 0⟩] rfl 0 ⟨101, 2, 3, 0⟩ rfl⟩

/-- C5: for a successfully analyzed image and any pair of node indices
`i < j`, exactly one edge joins them when the Euclidean centroid distance is
strictly below `min(h, w) / 5` and none otherwise; any such edge carries the
pair's squared distance as its (squared) weight, and edge presence between
`i` and `j` equals edge presence between `j` and `i`. -/
theorem C5_edge_characterization (cv : CvOps) (img : PyImage) (image : Raster)
    (sig : List Contour) (i j : Nat) (p q : ℤ × ℤ)
    (hstage : extractStage cv img = .ok (image, sig))
    (hij : i < j) (hj : j < sig.length)
    (hp : p = (sig.map centroid).getD i (0, 0))
    (hq : q = (sig.map centroid).getD j (0, 0)) :
    (edgesBetween (extract_graph_structure cv img) i j).length =
        (if Real.sqrt ((distSq p q : ℤ) : ℝ) < min (image.height : ℝ) (image.width : ℝ) / 5
         then 1 else 0) ∧
      (∀ e ∈ edgesBetween (extract_graph_structure cv img) i j,
        e.i = i ∧ e.j = j ∧ e.wsq = distSq p q) ∧
      edgesBetween (extract_graph_structure cv img) i j =
        edgesBetween (extract_graph_structure cv img) j i := by
  have hx : extract_graph_structure cv img = buildGraph sig image.height image.width := by
    simp [extract_graph_structure, hstage]
  have hF : ∀ pr e, ((fun pr : Nat × Nat =>
      if closeEnough ((sig.map centroid).getD pr.1 (0, 0)) ((sig.map centroid).getD pr.2 (0, 0))
          image.height image.width
      then some (⟨pr.1, pr.2, distSq ((sig.map centroid).getD pr.1 (0, 0))
        ((sig.map centroid).getD pr.2 (0, 0))⟩ : GraphEdge)
      else none) pr) = some e → e.i = pr.1 ∧ e.j = pr.2 := by
    intro pr e he
    simp only at he
    split at he
    · cases he; exact ⟨rfl, rfl⟩
    · cases he
  have hkey : edgesBetween (extract_graph_structure cv img) i j =
      (if closeEnough p q image.height image.width
       then [(⟨i, j, distSq p q⟩ : GraphEdge)] else []) := by
    rw [hx, hp, hq, edgesBetween]
    show ((pairList sig.length).filterMap _).filter _ = _
    rw [filter_between_filterMap _ hF i j hij (pairList sig.length)
      (fun pr hpr => ((mem_pairList _ pr).mp hpr).1)]
    rw [filter_eq_single (pairList sig.length) (i, j) (nodup_pairList _)
      (count_pairList _ i j hij hj)]
    simp only [List.filterMap_cons, List.filterMap_nil]
    by_cases hce : closeEnough ((sig.map centroid).getD i (0, 0))
        ((sig.map centroid).getD j (0, 0)) image.height image.width = true
    · rw [if_pos hce, if_pos hce]
    · rw [if_neg hce, if_neg hce]
  refine ⟨?_, ?_, ?_⟩
  · rw [hkey]
    by_cases hce : closeEnough p q image.height image.width = true
    · rw [if_pos hce, if_pos ((closeEnough_iff p q image.height image.width).mp hce)]
      rfl
    · rw [if_neg hce, if_neg (fun hr =>
        hce ((closeEnough_iff p q image.height image.width).mpr hr))]
      rfl
  · rw [hkey]
    split
    · intro e he
      rw [List.mem_singleton] at he
      subst he
      exact ⟨rfl, rfl, rfl⟩
    · intro e he
      cases he
  · rw [edgesBetween, edgesBetween]
    exact List.filter_congr (fun e _ => Bool.or_comm _ _)

/-- C5 witness: nodes 0 and 1 of the demo graph, one pixel apart on a 100x100
image, with the first conjunct of the characterization instantiated. -/
theorem C5_edge_characterization_witness :
    extractStage cvDemo (.raster ⟨100, 100⟩) =
        .ok (⟨100, 100⟩, [⟨101, 1, 0, 0⟩, ⟨101, 1, 1, 0⟩, ⟨101, 1, 2, 0⟩]) ∧
      (0 : Nat) < 1 ∧ (1 : Nat) < 3 ∧
      ((0, 0) : ℤ × ℤ) = ([⟨101, 1, 0, 0⟩, ⟨101, 1, 1, 0⟩,
        (⟨101, 1, 2, 0⟩ : Contour)].map centroid).getD 0 (0, 0) ∧
      (edgesBetween (extract_graph_structure cvDemo (.raster ⟨100, 100⟩)) 0 1).length =
        (if Real.sqrt ((distSq ((0, 0) : ℤ × ℤ) ((1, 0) : ℤ × ℤ) : ℤ) : ℝ) <
            min ((100 : ℕ) : ℝ) ((100 : ℕ) : ℝ) / 5
         then 1 else 0) :=
  ⟨rfl, by decide, by decide, by decide,
    (C5_edge_characterization cvDemo (.raster ⟨100, 100⟩) ⟨100, 100⟩
      [⟨101, 1, 0, 0⟩, ⟨101, 1, 1, 0⟩, ⟨101, 1, 2, 0⟩] 0 1 (0, 0) (1, 0)
      rfl (by decide) (by decide) (by decide) (by decide)).1⟩

/-- One successful loop iteration updates the best-graph pair exactly as the
pure selection over the record's candidate (if any) does, and leaves it alone
for skipped, table-classified, or non-graph images. -/
theorem processOne_ok (cv : CvOps) (st st2 : PState) (rec : ImgRecord)
    (h : processOne cv st rec = .ok st2) :
    (st2.best_graph, st2.max_nodes) =
      pickBest (st.best_graph, st.max_nodes) (classifyGraph cv rec).toList := by
  unfold processOne at h
  unfold classifyGraph
  cases hpre : preprocess_image cv rec.image with
  | pynone =>
    simp only [hpre] at h
    exact Except.noConfusion h
  | emptyArr =>
    simp only [hpre] at h
    have h2 : st = st2 := Except.ok.inj h
    subst h2
    rfl
  | img r =>
    simp only [hpre] at h ⊢
    by_cases hdt : detect_table cv (.raster r) = true
    · rw [if_pos hdt] at h
      rw [if_pos hdt]
      by_cases htt : (ocr_table cv r).trim ≠ ""
      · rw [if_pos htt] at h
        cases h
        rfl
      · rw [if_neg htt] at h
        cases h
        rfl
    · rw [if_neg hdt] at h
      rw [if_neg hdt]
      by_cases hig : is_graph_image cv (.raster r) = true
      · rw [if_pos hig] at h
        rw [if_pos hig]
        by_cases hmx : st.max_nodes < (extract_graph_structure cv (.raster r)).nodes.length
        · rw [if_pos hmx] at h
          cases h
          simp [pickBest, hmx]
        · rw [if_neg hmx] at h
          cases h
          simp [pickBest, hmx]
      · rw [if_neg hig] at h
        rw [if_neg hig]
        cases h
        rfl

/-- The candidates of a batch split at the head record. -/
theorem graphCandidates_cons (cv : CvOps) (rec : ImgRecord) (rest : List ImgRecord) :
    graphCandidates cv (rec :: rest) =
      (classifyGraph cv rec).toList ++ graphCandidates cv rest := by
  cases h : classifyGraph cv rec <;>
    simp [graphCandidates, List.filterMap_cons, h]

/-- The selection fold splits over appends. -/
theorem pickBest_append (init : Option Graph × Nat) (xs ys : List Graph) :
    pickBest init (xs ++ ys) = pickBest (pickBest init xs) ys := by
  unfold pickBest
  rw [List.foldl_append]

/-- A successful run of the whole loop computes the best-graph pair as the
pure selection over the batch's graph candidates. -/
theorem foldlM_ok (cv : CvOps) :
    ∀ (l : List ImgRecord) (st st2 : PState),
      l.foldlM (processOne cv) st = .ok st2 →
      (st2.best_graph, st2.max_nodes) =
        pickBest (st.best_graph, st.max_nodes) (graphCandidates cv l) := by
  intro l
  induction l with
  | nil =>
    intro st st2 h
    cases h
    rfl
  | cons rec rest ih =>
    intro st st2 h
    rw [List.foldlM_cons] at h
    cases hp : processOne cv st rec with
    | error e =>
      rw [hp] at h
      cases h
    | ok st1 =>
      rw [hp] at h
      have h1 := processOne_ok cv st st1 rec hp
      have h2 := ih st1 st2 h
      rw [graphCandidates_cons, pickBest_append, ← h1]
      exact h2

/-- The selection fold either never fires (all candidates bounded by the
initial count) or returns the first candidate that beats all those before it
and at least ties all those after it. -/
theorem pickBest_spec :
    ∀ (cs : List Graph) (b : Option Graph) (m : Nat),
      (pickBest (b, m) cs = (b, m) ∧ ∀ c ∈ cs, c.nodes.length ≤ m) ∨
      (∃ g pre post, cs = pre ++ g :: post ∧
        pickBest (b, m) cs = (some g, g.nodes.length) ∧
        m < g.nodes.length ∧
        (∀ c ∈ pre, c.nodes.length < g.nodes.length) ∧
        (∀ c ∈ post, c.nodes.length ≤ g.nodes.length)) := by
  intro cs
  induction cs with
  | nil =>
    intro b m
    left
    exact ⟨rfl, by simp⟩
  | cons c cs ih =>
    intro b m
    by_cases hm : m < c.nodes.length
    · have step : pickBest (b, m) (c :: cs) = pickBest (some c, c.nodes.length) cs := by
        simp [pickBest, hm]
      rcases ih (some c) c.nodes.length with ⟨heq, hall⟩ |
          ⟨g, pre, post, hsplit, heq, hlt, hpre, hpost⟩
      · right
        exact ⟨c, [], cs, rfl, by rw [step, heq], hm, by simp, hall⟩
      · right
        refine ⟨g, c :: pre, post, by rw [hsplit, List.cons_append],
          by rw [step, heq], lt_trans hm hlt, ?_, hpost⟩
        intro x hx
        rcases List.mem_cons.mp hx with rfl | hx
        · exact hlt
        · exact hpre x hx
    · have step : pickBest (b, m) (c :: cs) = pickBest (b, m) cs := by
        simp [pickBest, hm]
      rcases ih b m with ⟨heq, hall⟩ | ⟨g, pre, post, hsplit, heq, hlt, hpre, hpost⟩
      · left
        refine ⟨by rw [step, heq], ?_⟩
        intro x hx
        rcases List.mem_cons.mp hx with rfl | hx
        · exact not_lt.mp hm
        · exact hall x hx
      · right
        refine ⟨g, c :: pre, post, by rw [hsplit, List.cons_append],
          by rw [step, heq], hlt, ?_, hpost⟩
        intro x hx
        rcases List.mem_cons.mp hx with rfl | hx
        · exact lt_of_le_of_lt (not_lt.mp hm) hlt
        · exact hpre x hx

/-- Every graph candidate passed the classifier, so it has more than 2 nodes. -/
theorem mem_graphCandidates_pos (cv : CvOps) (l : List ImgRecord) (g : Graph)
    (hg : g ∈ graphCandidates cv l) : 2 < g.nodes.length := by
  rw [graphCandidates, List.mem_filterMap] at hg
  obtain ⟨rec, _, hcl⟩ := hg
  unfold classifyGraph at hcl
  cases hpre : preprocess_image cv rec.image with
  | pynone =>
    simp only [hpre] at hcl
    exact Option.noConfusion hcl
  | emptyArr =>
    simp only [hpre] at hcl
    exact Option.noConfusion hcl
  | img r =>
    simp only [hpre] at hcl
    by_cases hdt : detect_table cv (.raster r) = true
    · rw [if_pos hdt] at hcl
      cases hcl
    · rw [if_neg hdt] at hcl
      by_cases hig : is_graph_image cv (.raster r) = true
      · rw [if_pos hig] at hcl
        cases hcl
        have := hig
        simp only [is_graph_image, Bool.and_eq_true, decide_eq_true_eq] at this
        exact this.1
      · rw [if_neg hig] at hcl
        cases hcl

/-- A successful `process_images` run exposes its final loop state. -/
theorem process_images_ok (cv : CvOps) (l : List ImgRecord) (t : String)
    (go : Option Graph) (h : process_images cv l = .ok (t, go)) :
    ∃ st : PState, l.foldlM (processOne cv) ⟨[], none, 0⟩ = .ok st ∧
      go = st.best_graph := by
  unfold process_images at h
  cases hf : l.foldlM (processOne cv) (⟨[], none, 0⟩ : PState) with
  | error e =>
    rw [hf] at h
    cases h
  | ok st =>
    rw [hf] at h
    refine ⟨st, rfl, ?_⟩
    cases h
    rfl

/-- C9: whenever `process_images` completes and returns a graph, that graph
is the extracted graph of one of the batch's graph-classified images and its
node count is maximal among all of them. -/
theorem C9_best_graph_is_max (cv : CvOps) (images : List ImgRecord) (t : String)
    (g : Graph) (hok : process_images cv images = .ok (t, some g)) :
    g ∈ graphCandidates cv images ∧
      ∀ c ∈ graphCandidates cv images, c.nodes.length ≤ g.nodes.length := by
  obtain ⟨st, hfold, hgo⟩ := process_images_ok cv images t (some g) hok
  have hpair := foldlM_ok cv images ⟨[], none, 0⟩ st hfold
  rcases pickBest_spec (graphCandidates cv images) none 0 with ⟨heq, _⟩ |
      ⟨g0, pre, post, hsplit, heq, _, hpre, hpost⟩
  · rw [heq] at hpair
    rw [← hgo] at hpair
    cases (Prod.mk.injEq _ _ _ _).mp hpair |>.1
  · rw [heq] at hpair
    rw [← hgo] at hpair
    obtain ⟨hg0, hmx⟩ := (Prod.mk.injEq _ _ _ _).mp hpair
    obtain rfl : g = g0 := Option.some.inj hg0
    constructor
    · rw [hsplit]
      exact List.mem_append.mpr (Or.inr (List.mem_cons.mpr (Or.inl rfl)))
    · intro c hc
      rw [hsplit] at hc
      rcases List.mem_append.mp hc with hc | hc
      · exact le_of_lt (hpre c hc)
      · rcases List.mem_cons.mp hc with rfl | hc
        · exact le_refl _
        · exact hpost c hc

/-- C9 witness: a one-image batch through `cvDemo` yields the demo triangle,
trivially maximal. -/
theorem C9_best_graph_is_max_witness :
    process_images cvDemo [⟨[1], 0⟩] = .ok ("", some gDemo) ∧
      (gDemo ∈ graphCandidates cvDemo [⟨[1], 0⟩] ∧
        ∀ c ∈ graphCandidates cvDemo [⟨[1], 0⟩],
          c.nodes.length ≤ gDemo.nodes.length) :=
  ⟨rfl, C9_best_graph_is_max cvDemo [⟨[1], 0⟩] "" gDemo rfl⟩

/-- C10: a completed `process_images` returns no graph exactly when no image
of the batch is classified as a graph; and a returned graph is the earliest
candidate of maximal node count — all earlier candidates are strictly
smaller, all later ones no larger (a later graph replaces the best only when
strictly bigger). -/
theorem C10_none_iff_empty_and_first_max (cv : CvOps) (images : List ImgRecord)
    (t : String) (go : Option Graph) (hok : process_images cv images = .ok (t, go)) :
    (go = none ↔ graphCandidates cv images = []) ∧
      ∀ g, go = some g → ∃ pre post,
        graphCandidates cv images = pre ++ g :: post ∧
        (∀ c ∈ pre, c.nodes.length < g.nodes.length) ∧
        (∀ c ∈ post, c.nodes.length ≤ g.nodes.length) := by
  obtain ⟨st, hfold, hgo⟩ := process_images_ok cv images t go hok
  have hpair := foldlM_ok cv images ⟨[], none, 0⟩ st hfold
  rw [← hgo] at hpair
  rcases pickBest_spec (graphCandidates cv images) none 0 with ⟨heq, hall⟩ |
      ⟨g0, pre, post, hsplit, heq, _, hpre, hpost⟩
  · rw [heq] at hpair
    obtain ⟨hg0, _⟩ := (Prod.mk.injEq _ _ _ _).mp hpair
    constructor
    · rw [hg0]
      simp only [true_iff]
      cases hcs : graphCandidates cv images with
      | nil => rfl
      | cons c cs =>
        exfalso
        have hc : c ∈ graphCandidates cv images := by
          rw [hcs]
          exact List.mem_cons.mpr (Or.inl rfl)
        have h2 := mem_graphCandidates_pos cv images c hc
        have h0 := hall c (hcs ▸ hc)
        omega
    · intro g hg
      rw [hg0] at hg
      cases hg
  · rw [heq] at hpair
    obtain ⟨hg0, _⟩ := (Prod.mk.injEq _ _ _ _).mp hpair
    constructor
    · rw [hg0]
      constructor
      · intro hc
        cases hc
      · intro hc
        rw [hc] at hsplit
        cases pre <;> cases hsplit
    · intro g hg
      rw [hg0] at hg
      obtain rfl : g0 = g := Option.some.inj hg
      exact ⟨pre, post, hsplit, hpre, hpost⟩

/-- C10 witness: the empty batch completes with no graph, and a one-image
batch completes with the demo graph as the unique (hence first) maximum. -/
theorem C10_none_iff_empty_and_first_max_witness :
    process_images cvDemo [] = .ok ("", none) ∧
      ((none : Option Graph) = none ↔ graphCandidates cvDemo [] = []) :=
  ⟨rfl, (C10_none_iff_empty_and_first_max cvDemo [] "" none rfl).1⟩

end Manimify
